import Mathlib

/-!
Verification development for the self-driving-car evolution simulator
(`car.js`, `cerebro.js`-style brain file, `sketch.js`-style main loop).

JavaScript numbers are modelled as rationals (`ℚ`); the transcendental
primitives the code takes from p5.js and the float runtime (`cos`, `sin`,
`dist`, vector magnitude, `radians`) are bundled in a `Prim` structure and
quantified over in every theorem, since their exact float values never
decide any of the claims below.  Neural-network inference (`pensar`) is a
per-car function from normalized inputs to the `[rotation, throttle]`
pair.  Everything else — the tile grid, the sensor ray march, the BFS
distance oracle with its bounded cache, the per-tick update pipeline, the
fitness formula, and the generation loop — is translated directly from
the source.
-/

/-- Transcendental / float primitives supplied by p5.js and the JS runtime.
They are abstracted because they compute over binary floats with
transcendental functions; all claims hold for every choice of them. -/
structure Prim where
  radians : ℚ → ℚ
  cos : ℚ → ℚ
  sin : ℚ → ℚ
  dist : ℚ → ℚ → ℚ → ℚ → ℚ
  mag : ℚ → ℚ → ℚ

/-- The tile world: the global `mapa` grid (0 = road, 1 = wall, 2 = finish,
3 = spawn) and the global `tileSize` in pixels. -/
structure World where
  mapa : List (List Nat)
  tileSize : ℚ

/-- The row count `mapa.length`. -/
def World.mRows (w : World) : Nat := w.mapa.length

/-- The column count `mapa[0].length` (only read when a row index is
already known to be in bounds, hence the grid nonempty, as in the JS). -/
def World.mCols (w : World) : Nat := (w.mapa.getD 0 []).length

/-- The tile value `mapa[row][col]` for in-bounds indices. -/
def World.tile (w : World) (col row : Int) : Nat :=
  (w.mapa.getD row.toNat []).getD col.toNat 0

/-- The out-of-bounds test used throughout `car.js`
(`row < 0 || row >= mapa.length || col < 0 || col >= mapa[0].length`). -/
def World.oob (w : World) (col row : Int) : Bool :=
  decide (row < 0) || decide ((w.mRows : Int) ≤ row) ||
  decide (col < 0) || decide ((w.mCols : Int) ≤ col)

/-- p5.js `map(value, start1, stop1, start2, stop2)` (unclamped linear map). -/
def mapRange (v s1 e1 s2 e2 : ℚ) : ℚ :=
  s2 + (e2 - s2) * ((v - s1) / (e1 - s1))

/-- The ray-march loop of `Car._sensorReading`: sample at distances
`d = 0, 5, 10, …` while `d < 200`; report `d` as soon as the sample leaves
the map or lands on a wall tile, else report the max range 200. -/
def sensorLoop (pm : Prim) (w : World) (x y ang : ℚ) (d : Nat) : Nat :=
  if _h : d < 200 then
    let px := x + pm.cos ang * (d : ℚ)
    let py := y + pm.sin ang * (d : ℚ)
    let row : Int := ⌊py / w.tileSize⌋
    let col : Int := ⌊px / w.tileSize⌋
    if w.oob col row then d
    else if w.tile col row = 1 then d
    else sensorLoop pm w x y ang (d + 5)
  else 200
termination_by 200 - d
decreasing_by omega

/-- The function `Car._sensorReading(offset)`: cast one ray at `angle + offset`. -/
def sensorReading (pm : Prim) (w : World) (x y angle off : ℚ) : Nat :=
  sensorLoop pm w x y (angle + off) 0

theorem sensorLoop_le (pm : Prim) (w : World) (x y ang : ℚ) :
    ∀ d, sensorLoop pm w x y ang d ≤ 200 := by
  suffices h : ∀ n d, 200 - d ≤ n → sensorLoop pm w x y ang d ≤ 200 by
    intro d; exact h 200 d (by omega)
  intro n
  induction n with
  | zero =>
    intro d hd
    unfold sensorLoop
    have hnot : ¬ d < 200 := by omega
    simp [hnot]
  | succ n ih =>
    intro d hd
    unfold sensorLoop
    by_cases hlt : d < 200
    · simp only [hlt, dite_true]
      split
      · omega
      · split
        · omega
        · exact ih (d + 5) (by omega)
    · simp [hlt]

/-- Claim C1.  Raw ray distances do lie in `[0, 200]` and the normalized
readings fed to the policy do lie in `[0, 1]`; but the linear map the code
applies, `map(v, 0, 200, 1, 0)`, sends a clear ray (raw 200) to `0` and a
wall at zero distance to `1` — the opposite orientation of the one the
claim (and the code's own comments) state. -/
theorem C1_sensor_bounds_normalization_inverted (pm : Prim) (w : World)
    (x y a off : ℚ) :
    0 ≤ sensorReading pm w x y a off ∧
    sensorReading pm w x y a off ≤ 200 ∧
    (0 : ℚ) ≤ mapRange (sensorReading pm w x y a off : ℚ) 0 200 1 0 ∧
    mapRange (sensorReading pm w x y a off : ℚ) 0 200 1 0 ≤ 1 ∧
    mapRange 200 0 200 1 0 = 0 ∧
    mapRange 0 0 200 1 0 = 1 := by
  have hle : sensorReading pm w x y a off ≤ 200 := sensorLoop_le pm w x y (a + off) 0
  have hcast : ((sensorReading pm w x y a off : ℚ)) ≤ 200 := by exact_mod_cast hle
  have hcast0 : (0 : ℚ) ≤ (sensorReading pm w x y a off : ℚ) := by positivity
  refine ⟨Nat.zero_le _, hle, ?_, ?_, ?_, ?_⟩
  · unfold mapRange
    nlinarith
  · unfold mapRange
    nlinarith
  · unfold mapRange; norm_num
  · unfold mapRange; norm_num

/-! ## BFS distance oracle (`Car._bfs`, `Car._bfsDistanceToFinish`) -/

/-- Grid cell, stored as `(x, y) = (col, row)` like the p5 vectors in the JS. -/
abbrev Cell := Int × Int

/-- The 4-connected neighbour offsets, in the order of `Car._bfs`. -/
def dirs : List Cell := [(0, -1), (1, 0), (0, 1), (-1, 0)]

/-- The predicate `Car._tileWalkable`: in bounds and not a wall. -/
def tileWalkable (w : World) (p : Cell) : Bool :=
  if w.oob p.1 p.2 then false else w.tile p.1 p.2 ≠ 1

/-- The list `Car._finishTiles`: all cells with tile value 2, in row-major order. -/
def finishTiles (w : World) : List Cell :=
  (List.range w.mRows).flatMap (fun r =>
    (List.range (w.mapa.getD r []).length).filterMap (fun c =>
      if (w.mapa.getD r []).getD c 0 = 2 then some (Int.ofNat c, Int.ofNat r) else none))

/-- One neighbour inspection inside the BFS loop: if the neighbour is not
yet visited and walkable, mark it visited and append it to the queue. -/
def bfsPush (w : World) (pos : Cell) (steps : Nat)
    (acc : List Cell × List (Cell × Nat)) (d : Cell) : List Cell × List (Cell × Nat) :=
  let np : Cell := (pos.1 + d.1, pos.2 + d.2)
  if ¬ acc.1.contains np ∧ tileWalkable w np then
    (np :: acc.1, acc.2 ++ [(np, steps + 1)])
  else acc

/-- All in-bounds cells (used only for the termination measure). -/
def allCells (w : World) : List Cell :=
  (List.range w.mRows).flatMap (fun r =>
    (List.range w.mCols).map (fun c => (Int.ofNat c, Int.ofNat r)))

/-- Number of in-bounds cells not yet visited. -/
def remaining (w : World) (vis : List Cell) : Nat :=
  ((allCells w).filter (fun c => ! vis.contains c)).length

/-- Termination measure for the BFS loop. -/
def bfsMeasure (w : World) (vis : List Cell) (q : List (Cell × Nat)) : Nat :=
  2 * remaining w vis + q.length

theorem mem_allCells_of_walkable (w : World) (p : Cell)
    (h : tileWalkable w p = true) : p ∈ allCells w := by
  unfold tileWalkable at h
  split at h
  · simp at h
  · rename_i hoob
    unfold World.oob at hoob
    simp only [Bool.or_eq_true, decide_eq_true_eq, not_or] at hoob
    push_neg at hoob
    obtain ⟨⟨⟨h1, h2⟩, h3⟩, h4⟩ := hoob
    unfold allCells
    have hr : p.2.toNat ∈ List.range w.mRows := List.mem_range.mpr (by omega)
    have hc : p.1.toNat ∈ List.range w.mCols := List.mem_range.mpr (by omega)
    have he : (Int.ofNat p.1.toNat, Int.ofNat p.2.toNat) = p := by
      obtain ⟨a, b⟩ := p
      simp only [Prod.mk.injEq, Int.ofNat_eq_coe]
      exact ⟨by omega, by omega⟩
    exact List.mem_flatMap.mpr ⟨p.2.toNat, hr, List.mem_map.mpr ⟨p.1.toNat, hc, he⟩⟩

theorem remaining_cons_lt (w : World) (vis : List Cell) (p : Cell)
    (hmem : p ∈ allCells w) (hnot : vis.contains p = false) :
    remaining w (p :: vis) < remaining w vis := by
  unfold remaining
  have hsub : ((allCells w).filter (fun c => ! (p :: vis).contains c)).Sublist
      ((allCells w).filter (fun c => ! vis.contains c)) := by
    apply List.monotone_filter_right
    intro a ha
    simp only [List.contains_cons, Bool.not_eq_true', Bool.or_eq_false_iff] at ha ⊢
    exact ha.2
  have hle := hsub.length_le
  rcases Nat.lt_or_ge ((allCells w).filter (fun c => ! (p :: vis).contains c)).length
      ((allCells w).filter (fun c => ! vis.contains c)).length with hlt | hge
  · exact hlt
  · exfalso
    have heq := hsub.eq_of_length (by omega)
    have hp1 : p ∈ (allCells w).filter (fun c => ! vis.contains c) := by
      rw [List.mem_filter]
      exact ⟨hmem, by rw [hnot]; rfl⟩
    rw [← heq, List.mem_filter] at hp1
    have h2 := hp1.2
    have h3 : (p :: vis).contains p = true := by simp
    rw [h3] at h2
    exact absurd h2 (by simp)

theorem bfsPush_measure (w : World) (pos : Cell) (steps : Nat)
    (acc : List Cell × List (Cell × Nat)) (d : Cell) :
    bfsMeasure w (bfsPush w pos steps acc d).1 (bfsPush w pos steps acc d).2 ≤
      bfsMeasure w acc.1 acc.2 := by
  simp only [bfsPush]
  split
  · rename_i hcond
    obtain ⟨hnv, hw⟩ := hcond
    have hmem := mem_allCells_of_walkable w _ hw
    have hlt := remaining_cons_lt w acc.1 _ hmem (by simpa using hnv)
    simp only [bfsMeasure, List.length_append, List.length_cons, List.length_nil]
    omega
  · exact le_refl _

theorem bfsFold_measure (w : World) (pos : Cell) (steps : Nat) :
    ∀ (ds : List Cell) (acc : List Cell × List (Cell × Nat)),
    bfsMeasure w (ds.foldl (bfsPush w pos steps) acc).1
        (ds.foldl (bfsPush w pos steps) acc).2 ≤ bfsMeasure w acc.1 acc.2 := by
  intro ds
  induction ds with
  | nil => intro acc; exact le_refl _
  | cons d ds ih =>
    intro acc
    calc bfsMeasure w ((ds.foldl (bfsPush w pos steps) (bfsPush w pos steps acc d))).1
          ((ds.foldl (bfsPush w pos steps) (bfsPush w pos steps acc d))).2 ≤
        bfsMeasure w (bfsPush w pos steps acc d).1 (bfsPush w pos steps acc d).2 :=
          ih (bfsPush w pos steps acc d)
      _ ≤ bfsMeasure w acc.1 acc.2 := bfsPush_measure w pos steps acc d

/-- The main loop of `Car._bfs`: pop the queue front, return
`steps * tileSize` when the popped cell is a finish target, otherwise push
the unvisited walkable 4-neighbours; return 9999 when the queue empties. -/
def bfsLoop (w : World) (targets : List Cell) (visited : List Cell)
    (queue : List (Cell × Nat)) : ℚ :=
  match queue with
  | [] => 9999
  | (pos, steps) :: rest =>
    if targets.any (fun t => t == pos) then (steps : ℚ) * w.tileSize
    else
      let st := dirs.foldl (bfsPush w pos steps) (visited, rest)
      bfsLoop w targets st.1 st.2
termination_by bfsMeasure w visited queue
decreasing_by
  have h1 := bfsFold_measure w pos steps dirs (visited, rest)
  simp only [bfsMeasure, List.length_cons] at h1 ⊢
  omega

/-- The function `Car._bfs(start, targets)`: quick check for the start already being a
target, then the BFS loop seeded with the start cell. -/
def bfs (w : World) (start : Cell) (targets : List Cell) : ℚ :=
  if targets.any (fun t => t == start) then 0
  else bfsLoop w targets [start] [(start, 0)]

/-- The cell key `(col, row) = (floor(x / tileSize), floor(y / tileSize))`
under which `Car._bfsDistanceToFinish` caches its result. -/
def cacheKey (w : World) (x y : ℚ) : Cell := (⌊x / w.tileSize⌋, ⌊y / w.tileSize⌋)

/-- The oracle `Car._bfsDistanceToFinish`: cached BFS distance from the car's tile to
the nearest finish tile.  Returns the distance together with the updated
cache (the JS mutates `this._distanceCache` in place; the cache is a
`Map`, modelled as an insertion-ordered association list).  With no finish
tile at all it returns the sentinel 9999 before touching the cache; after
an insertion pushing the cache above 100 entries, the oldest entry is
evicted. -/
def bfsDistanceToFinish (w : World) (x y : ℚ) (cache : List (Cell × ℚ)) :
    ℚ × List (Cell × ℚ) :=
  let key := cacheKey w x y
  match List.lookup key cache with
  | some d => (d, cache)
  | none =>
    let targets := finishTiles w
    if targets.length = 0 then (9999, cache)
    else
      let d := bfs w key targets
      let c1 := cache ++ [(key, d)]
      let c2 := if 100 < c1.length then c1.tail else c1
      (d, c2)

theorem targets_any_eq_false (targets : List Cell) (R : Cell → Bool) (pos : Cell)
    (ht : ∀ t ∈ targets, R t = false) (hp : R pos = true) :
    targets.any (fun t => t == pos) = false := by
  rw [List.any_eq_false]
  intro t htmem
  intro hbeq
  have heq : t = pos := by simpa using hbeq
  rw [heq] at htmem
  have hf := ht pos htmem
  rw [hf] at hp
  exact Bool.false_ne_true hp

theorem bfsFold_inv (w : World) (R : Cell → Bool) (pos : Cell) (steps : Nat)
    (hclosed : ∀ p, R p = true → ∀ d ∈ dirs,
      tileWalkable w (p.1 + d.1, p.2 + d.2) = true → R (p.1 + d.1, p.2 + d.2) = true)
    (hpos : R pos = true) :
    ∀ (ds : List Cell), (∀ d ∈ ds, d ∈ dirs) →
    ∀ (acc : List Cell × List (Cell × Nat)), (∀ pr ∈ acc.2, R pr.1 = true) →
    ∀ pr ∈ (ds.foldl (bfsPush w pos steps) acc).2, R pr.1 = true := by
  intro ds
  induction ds with
  | nil => intro _ acc hq; exact hq
  | cons d ds ih =>
    intro hds acc hq
    simp only [List.foldl_cons]
    apply ih (fun e he => hds e (List.mem_cons_of_mem d he))
    intro pr hpr
    simp only [bfsPush] at hpr
    split at hpr
    · rename_i hcond
      simp only [List.mem_append, List.mem_singleton] at hpr
      rcases hpr with hpr | hpr
      · exact hq pr hpr
      · rw [hpr]
        exact hclosed pos hpos d (hds d (List.mem_cons_self _ _)) hcond.2
    · exact hq pr hpr

theorem bfsLoop_sentinel (w : World) (targets : List Cell) (R : Cell → Bool)
    (hclosed : ∀ p, R p = true → ∀ d ∈ dirs,
      tileWalkable w (p.1 + d.1, p.2 + d.2) = true → R (p.1 + d.1, p.2 + d.2) = true)
    (ht : ∀ t ∈ targets, R t = false) :
    ∀ (n : Nat) (visited : List Cell) (queue : List (Cell × Nat)),
      bfsMeasure w visited queue ≤ n → (∀ pr ∈ queue, R pr.1 = true) →
      bfsLoop w targets visited queue = 9999 := by
  intro n
  induction n with
  | zero =>
    intro visited queue hm hq
    have hlen : queue.length = 0 := by
      simp only [bfsMeasure] at hm; omega
    rw [List.length_eq_zero] at hlen
    rw [hlen, bfsLoop]
  | succ n ih =>
    intro visited queue hm hq
    match queue with
    | [] => rw [bfsLoop]
    | (pos, steps) :: rest =>
      rw [bfsLoop]
      have hpos : R pos = true := hq (pos, steps) (List.mem_cons_self _ _)
      rw [targets_any_eq_false targets R pos ht hpos]
      simp only [Bool.false_eq_true, if_false]
      apply ih
      · have h1 := bfsFold_measure w pos steps dirs (visited, rest)
        simp only [bfsMeasure, List.length_cons] at hm h1 ⊢
        omega
      · exact bfsFold_inv w R pos steps hclosed hpos dirs (fun d hd => hd) (visited, rest)
          (fun pr hpr => hq pr (List.mem_cons_of_mem _ hpr))

/-- The search `Car._bfs` returns the 9999 sentinel whenever some set `R` of cells
contains the start, is closed under walkable 4-neighbour steps, and
excludes every target: the frontier never leaves `R`, so it is exhausted. -/
theorem bfs_sentinel (w : World) (start : Cell) (targets : List Cell) (R : Cell → Bool)
    (hstart : R start = true)
    (hclosed : ∀ p, R p = true → ∀ d ∈ dirs,
      tileWalkable w (p.1 + d.1, p.2 + d.2) = true → R (p.1 + d.1, p.2 + d.2) = true)
    (ht : ∀ t ∈ targets, R t = false) :
    bfs w start targets = 9999 := by
  unfold bfs
  rw [targets_any_eq_false targets R start ht hstart]
  simp only [Bool.false_eq_true, if_false]
  exact bfsLoop_sentinel w targets R hclosed ht (bfsMeasure w [start] [(start, 0)])
    [start] [(start, 0)] (le_refl _)
    (fun pr hpr => by
      simp only [List.mem_singleton] at hpr
      rw [hpr]
      exact hstart)

/-- Claim C6.  The distance oracle never fails: on a map with zero finish
tiles every (uncached) query returns the sentinel 9999 and leaves the
cache untouched, and when the queried cell lies in a set of cells that is
closed under walkable steps and reaches no finish tile, the BFS exhausts
its frontier and the query also returns 9999. -/
theorem C6_oracle_sentinel (w : World) :
    (finishTiles w = [] → ∀ x y cache,
        List.lookup (cacheKey w x y) cache = none →
        bfsDistanceToFinish w x y cache = (9999, cache)) ∧
    (∀ x y cache (R : Cell → Bool),
        List.lookup (cacheKey w x y) cache = none →
        R (cacheKey w x y) = true →
        (∀ p, R p = true → ∀ d ∈ dirs,
          tileWalkable w (p.1 + d.1, p.2 + d.2) = true →
          R (p.1 + d.1, p.2 + d.2) = true) →
        (∀ t ∈ finishTiles w, R t = false) →
        (bfsDistanceToFinish w x y cache).1 = 9999) := by
  constructor
  · intro hft x y cache hmiss
    simp only [bfsDistanceToFinish, hmiss, hft]
    simp
  · intro x y cache R hmiss hstart hclosed ht
    simp only [bfsDistanceToFinish, hmiss]
    by_cases hlen : (finishTiles w).length = 0
    · simp [hlen]
    · rw [if_neg hlen]
      exact bfs_sentinel w (cacheKey w x y) (finishTiles w) R hstart hclosed ht

/-! ## The Agent (`Car`) -/

/-- A neural policy as used by `Car.update`: `Cerebro.pensar` maps the 9
normalized sensor inputs to the `[rotation, acceleration]` pair. -/
abbrev BrainFn := List ℚ → ℚ × ℚ

/-- The mutable state of one `Car` (the fields set in the constructor).
`cache` is `_distanceCache`; `_finishCache` is a pure function of the
immutable map and needs no field. -/
structure Car where
  x : ℚ
  y : ℚ
  vel : ℚ × ℚ
  angle : ℚ
  alive : Bool
  finished : Bool
  brain : BrainFn
  sensors : List ℚ
  readings : List ℚ
  score : ℚ
  distanceTravelled : ℚ
  lastPosition : ℚ × ℚ
  accumulatedSpeed : ℚ
  framesAlive : Nat
  idleFrames : Nat
  collisions : Nat
  cache : List (Cell × ℚ)
  distToFinish : ℚ
  bestDist : ℚ

/-- Lines 59–77 of `Car.update`: distance-travelled bookkeeping, sensor
recomputation, network decision, steering, throttle, friction, movement,
and the `framesAlive` increment. -/
def integrate (pm : Prim) (w : World) (c : Car) : Car :=
  let dFrame := pm.dist c.x c.y c.lastPosition.1 c.lastPosition.2
  let readings := c.sensors.map (fun off => ((sensorReading pm w c.x c.y c.angle off : Nat) : ℚ))
  let inputs := readings.map (fun v => mapRange v 0 200 1 0)
  let o := c.brain inputs
  let angle := c.angle + o.1 * 0.1
  let v1 : ℚ × ℚ := (c.vel.1 + pm.cos angle * (o.2 * 0.3), c.vel.2 + pm.sin angle * (o.2 * 0.3))
  let v2 : ℚ × ℚ := (v1.1 * 0.95, v1.2 * 0.95)
  { c with
    distanceTravelled := c.distanceTravelled + dFrame,
    lastPosition := (c.x, c.y),
    readings := readings,
    angle := angle,
    vel := v2,
    x := c.x + v2.1,
    y := c.y + v2.2,
    framesAlive := c.framesAlive + 1 }

/-- Lines 80–81: increment the idle counter while `|vel| < 0.1`, else reset. -/
def idleStep (pm : Prim) (c : Car) : Car :=
  if pm.mag c.vel.1 c.vel.2 < 0.1 then { c with idleFrames := c.idleFrames + 1 }
  else { c with idleFrames := 0 }

/-- Lines 88–92: accumulate speed and award the speed bonus. -/
def speedStep (pm : Prim) (c : Car) : Car :=
  let speed := pm.mag c.vel.1 c.vel.2
  { c with
    accumulatedSpeed := c.accumulatedSpeed + speed,
    score := if speed > 1.5 then c.score + speed * 0.2
             else if speed > 0.5 then c.score + speed * 0.15
             else c.score }

/-- Lines 94–100: recompute `distToFinish` through the oracle, award the
progress bonus, and fold the best distance. -/
def progressStep (w : World) (c : Car) : Car :=
  let prevDist := c.distToFinish
  let r := bfsDistanceToFinish w c.x c.y c.cache
  { c with
    distToFinish := r.1,
    cache := r.2,
    score := if r.1 < prevDist then c.score + (prevDist - r.1) * 0.3 else c.score,
    bestDist := if r.1 < c.bestDist then r.1 else c.bestDist }

/-- The finish-line test of lines 104–109:
in bounds and the current tile is the finish value 2. -/
def onFinishTile (w : World) (x y : ℚ) : Bool :=
  let col : Int := ⌊x / w.tileSize⌋
  let row : Int := ⌊y / w.tileSize⌋
  !(w.oob col row) && (w.tile col row == 2)

/-- Lines 102–115: finish detection — flag, +2000 bonus, and halt. -/
def finishStep (w : World) (c : Car) : Car :=
  if !c.finished && onFinishTile w c.x c.y then
    { c with finished := true, score := c.score + 2000, alive := false }
  else c

/-- The predicate `Car._hasCollided`: current tile is a wall or out of bounds. -/
def hasCollided (w : World) (x y : ℚ) : Bool :=
  let row : Int := ⌊y / w.tileSize⌋
  let col : Int := ⌊x / w.tileSize⌋
  if w.oob col row then true else w.tile col row == 1

/-- Lines 117–122: collision bookkeeping — increment the counter, subtract
`40 * collisions`, and kill the agent once the counter exceeds 2. -/
def collisionStep (w : World) (c : Car) : Car :=
  if hasCollided w c.x c.y then
    { c with
      collisions := c.collisions + 1,
      score := c.score - 40 * ((c.collisions : ℚ) + 1),
      alive := if c.collisions + 1 > 2 then false else c.alive }
  else c

/-- The scoring phases between the idle early-return and the collision
check (speed bonus, progress bonus, finish detection). -/
def accrue (pm : Prim) (w : World) (c : Car) : Car :=
  finishStep w (progressStep w (speedStep pm c))

/-- The step `Car.update()`: no-op when dead; otherwise integrate physics, then the
idle check with its early return (death at `idleFrames > 300`, −100), then
scoring, finish detection, and collision handling. -/
def update (pm : Prim) (w : World) (c : Car) : Car :=
  if c.alive then
    let c1 := idleStep pm (integrate pm w c)
    if c1.idleFrames > 300 then { c1 with alive := false, score := c1.score - 100 }
    else collisionStep w (accrue pm w c1)
  else c

/-- The fitness `Car.calcularFitness()`, translated line by line. -/
def calcularFitness (c : Car) : ℚ :=
  let f0 := c.score
  let f1 := if c.alive = false ∧ c.finished = false then f0 * 0.7 else f0
  let avgSpeed := c.accumulatedSpeed / max 1 ((c.framesAlive : ℚ))
  let f2 := f1 + (c.framesAlive : ℚ) * 0.1 + avgSpeed * 50
  let f3 := f2 + max 0 ((1000 - c.bestDist) * 0.2)
  max 0 f3

/-- The fitness formula as the specification words it: start from the
accumulated score; multiply by 0.7 iff the agent is dead and not finished;
add `framesAlive * 0.1 + averageSpeed * 50` with
`averageSpeed = accumulatedSpeed / max(1, framesAlive)`; add the proximity
bonus `max(0, (1000 - bestDist) * 0.2)`.  Stated separately so the code's
function can be proven to refine it. -/
def fitnessSpecFormula (c : Car) : ℚ :=
  (if c.alive = false ∧ c.finished = false then c.score * 0.7 else c.score)
    + (c.framesAlive : ℚ) * 0.1
    + (c.accumulatedSpeed / max 1 ((c.framesAlive : ℚ))) * 50
    + max 0 ((1000 - c.bestDist) * 0.2)

/-- Claim C2.  `calcularFitness` computes exactly the clamped spec formula,
and is therefore non-negative for every agent state. -/
theorem C2_fitness_formula_nonneg (c : Car) :
    calcularFitness c = max 0 (fitnessSpecFormula c) ∧ 0 ≤ calcularFitness c := by
  constructor
  · unfold calcularFitness fitnessSpecFormula
    ring_nf
  · unfold calcularFitness
    exact le_max_left 0 _

/-- Claim C9.  `update()` on a dead (or finished, hence not-alive) agent
changes nothing: every field is exactly as it was. -/
theorem C9_update_dead_frozen (pm : Prim) (w : World) (c : Car)
    (h : c.alive = false) : update pm w c = c := by
  unfold update
  rw [h]
  simp

/-! ## The genetic engine (`sketch.js`) -/

/-- The constant `MAX_FRAMES`: frame budget per generation. -/
def MAX_FRAMES : Nat := 3000

/-- The constant `ELITE_COUNT`: top brains kept across generations. -/
def ELITE_COUNT : Nat := 3

/-- The engine's mutable globals. -/
structure Engine where
  population : List Car
  eliteBrains : List BrainFn
  generation : Nat
  frameCount : Nat
  transitioning : Bool
  bestScoreEver : ℚ
  totalFinished : Nat

/-- The comparator `(a, b) => b.calcularFitness() - a.calcularFitness()`
read as an "`a` sorts no later than `b`" boolean: descending by fitness.
JS `Array.prototype.sort` is stable (ES2019), hence the stable merge sort. -/
def fitLe (a b : Car) : Bool := calcularFitness b ≤ calcularFitness a

/-- The `population.sort(...)` call in `nextGeneration`: a stable sort,
descending by fitness. -/
def sortByFitness (pop : List Car) : List Car := pop.mergeSort fitLe

/-- Number of cars with `alive` set after this tick's updates. -/
def aliveCount (pop : List Car) : Nat := (pop.filter (fun c => c.alive)).length

/-- The leader fold of `draw()`: starting from `-Infinity` (modelled as
`none`), keep the strictly largest score among the *alive* cars. -/
def leaderStep (acc : Option ℚ) (c : Car) : Option ℚ :=
  if c.alive then
    match acc with
    | none => some c.score
    | some s => if c.score > s then some c.score else acc
  else acc

/-- The value `leaderScore` after iterating over the whole population. -/
def leaderScoreOf (pop : List Car) : Option ℚ := pop.foldl leaderStep none

/-- The transition `nextGeneration()` followed by the `newGeneration()` it calls: sort by
descending fitness, clone the top `ELITE_COUNT` brains (`copiaCerebro`
produces an extensionally identical policy), accumulate the finisher
count, bump the generation, and rebuild the population (`newGeneration`'s
mutation draws global randomness, so the rebuilt population is supplied by
the abstract `spawnF`); `transitioning` is set and then cleared again, and
the frame counter is reset to 0. -/
def nextGeneration (spawnF : List BrainFn → List Car) (e : Engine) : Engine :=
  let sorted := sortByFitness e.population
  let elites := (sorted.take ELITE_COUNT).map (fun c => c.brain)
  { e with
    population := spawnF elites,
    eliteBrains := elites,
    generation := e.generation + 1,
    frameCount := 0,
    transitioning := false,
    totalFinished := e.totalFinished + (e.population.filter (fun c => c.finished)).length }

/-- One `draw()` call, rendering stripped: update every car, count the
alive ones and fold their leader score, advance the frame counter, fold
the all-time best, and fire `nextGeneration()` exactly when
`(aliveCount === 0 || frameCount_ > MAX_FRAMES) && !transitioning`. -/
def drawStep (pm : Prim) (w : World) (spawnF : List BrainFn → List Car)
    (e : Engine) : Engine :=
  let pop := e.population.map (update pm w)
  let ac := aliveCount pop
  let ls := leaderScoreOf pop
  let fc := e.frameCount + 1
  let best := match ls with
    | some s => if s > e.bestScoreEver then s else e.bestScoreEver
    | none => e.bestScoreEver
  let e1 := { e with population := pop, frameCount := fc, bestScoreEver := best }
  if (ac = 0 ∨ fc > MAX_FRAMES) ∧ e.transitioning = false then nextGeneration spawnF e1
  else e1

theorem drawStep_fields_of_transition (pm : Prim) (w : World)
    (spawnF : List BrainFn → List Car) (e : Engine)
    (h : (aliveCount (e.population.map (update pm w)) = 0 ∨
          e.frameCount + 1 > MAX_FRAMES) ∧ e.transitioning = false) :
    (drawStep pm w spawnF e).generation = e.generation + 1 ∧
    (drawStep pm w spawnF e).frameCount = 0 ∧
    (drawStep pm w spawnF e).transitioning = false := by
  unfold drawStep
  rw [if_pos h]
  simp [nextGeneration]

theorem drawStep_fields_no_transition (pm : Prim) (w : World)
    (spawnF : List BrainFn → List Car) (e : Engine)
    (h : ¬ ((aliveCount (e.population.map (update pm w)) = 0 ∨
          e.frameCount + 1 > MAX_FRAMES) ∧ e.transitioning = false)) :
    (drawStep pm w spawnF e).generation = e.generation ∧
    (drawStep pm w spawnF e).frameCount = e.frameCount + 1 ∧
    (drawStep pm w spawnF e).transitioning = e.transitioning ∧
    (drawStep pm w spawnF e).population = e.population.map (update pm w) := by
  unfold drawStep
  rw [if_neg h]
  exact ⟨rfl, rfl, rfl, rfl⟩

/-- Claim C5.  With the engine in its steady state (`transitioning` is
false whenever `draw` is entered), a tick transitions to the next
generation exactly when after the updates no car is alive or the advanced
frame counter strictly exceeds `MAX_FRAMES = 3000`; a tick that merely
reaches 3000 with survivors does not transition, and the following tick
(counter 3001) does. -/
theorem C5_generation_transition (pm : Prim) (w : World)
    (spawnF : List BrainFn → List Car) (e : Engine)
    (ht : e.transitioning = false) :
    ((drawStep pm w spawnF e).generation = e.generation + 1 ↔
      (aliveCount (e.population.map (update pm w)) = 0 ∨
        e.frameCount + 1 > MAX_FRAMES)) ∧
    (e.frameCount + 1 = MAX_FRAMES →
      aliveCount (e.population.map (update pm w)) ≠ 0 →
      (drawStep pm w spawnF e).generation = e.generation ∧
      (drawStep pm w spawnF e).frameCount = MAX_FRAMES ∧
      (drawStep pm w spawnF (drawStep pm w spawnF e)).generation =
        e.generation + 1) := by
  constructor
  · by_cases hc : aliveCount (e.population.map (update pm w)) = 0 ∨
        e.frameCount + 1 > MAX_FRAMES
    · have hfields := drawStep_fields_of_transition pm w spawnF e ⟨hc, ht⟩
      rw [hfields.1]
      simp [hc]
    · have hfields := drawStep_fields_no_transition pm w spawnF e (by
        intro hand; exact hc hand.1)
      rw [hfields.1]
      constructor
      · intro habs; omega
      · intro habs; exact absurd habs hc
  · intro hfc hac
    have hnc : ¬ (aliveCount (e.population.map (update pm w)) = 0 ∨
        e.frameCount + 1 > MAX_FRAMES) := by
      rintro (h0 | hgt)
      · exact hac h0
      · omega
    have hfields := drawStep_fields_no_transition pm w spawnF e (by
      intro hand; exact hnc hand.1)
    refine ⟨hfields.1, by rw [hfields.2.1, hfc], ?_⟩
    have ht2 : (drawStep pm w spawnF e).transitioning = false := by
      rw [hfields.2.2.1, ht]
    have hc2 : (aliveCount ((drawStep pm w spawnF e).population.map (update pm w)) = 0 ∨
        (drawStep pm w spawnF e).frameCount + 1 > MAX_FRAMES) := by
      right
      rw [hfields.2.1, hfc]
      omega
    have hres := drawStep_fields_of_transition pm w spawnF (drawStep pm w spawnF e) ⟨hc2, ht2⟩
    rw [hres.1, hfields.1]

theorem fitLe_trans : ∀ a b c : Car,
    fitLe a b = true → fitLe b c = true → fitLe a c = true := by
  intro a b c hab hbc
  simp only [fitLe, decide_eq_true_eq] at hab hbc ⊢
  exact le_trans hbc hab

theorem fitLe_total : ∀ a b : Car, (fitLe a b || fitLe b a) = true := by
  intro a b
  simp only [fitLe, Bool.or_eq_true, decide_eq_true_eq]
  exact le_total (calcularFitness b) (calcularFitness a)

/-- Claim C8.  At generation end the population is stably sorted by
descending fitness and the elite brains are exactly those of the top
`ELITE_COUNT = 3` agents of that ranking: the sort is a permutation,
pairwise descending, every kept agent's fitness dominates every dropped
agent's, and any already-descending sublist of the original population
survives in order (stability). -/
theorem C8_selection_top3 (spawnF : List BrainFn → List Car) (e : Engine) :
    (nextGeneration spawnF e).eliteBrains =
      ((sortByFitness e.population).take 3).map (fun c => c.brain) ∧
    (sortByFitness e.population).Perm e.population ∧
    (sortByFitness e.population).Pairwise
      (fun a b => calcularFitness b ≤ calcularFitness a) ∧
    (∀ a ∈ (sortByFitness e.population).take 3,
      ∀ b ∈ (sortByFitness e.population).drop 3,
      calcularFitness b ≤ calcularFitness a) ∧
    (∀ l : List Car, l.Pairwise (fun a b => fitLe a b = true) →
      l.Sublist e.population → l.Sublist (sortByFitness e.population)) := by
  have hpairwise : (sortByFitness e.population).Pairwise
      (fun a b => calcularFitness b ≤ calcularFitness a) := by
    have h := List.sorted_mergeSort fitLe_trans fitLe_total e.population
    exact h.imp (fun hab => by
      simpa only [fitLe, decide_eq_true_eq] using hab)
  refine ⟨rfl, List.mergeSort_perm e.population fitLe, hpairwise, ?_, ?_⟩
  · have hsplit := hpairwise
    rw [← List.take_append_drop 3 (sortByFitness e.population)] at hsplit
    exact (List.pairwise_append.mp hsplit).2.2
  · intro l hl hsub
    exact List.sublist_mergeSort fitLe_trans fitLe_total hl hsub

theorem idleStep_finished (pm : Prim) (c : Car) :
    (idleStep pm c).finished = c.finished := by
  unfold idleStep; split <;> rfl

theorem idleStep_alive (pm : Prim) (c : Car) :
    (idleStep pm c).alive = c.alive := by
  unfold idleStep; split <;> rfl

theorem collisionStep_finished (w : World) (c : Car) :
    (collisionStep w c).finished = c.finished := by
  unfold collisionStep; split <;> rfl

theorem collisionStep_alive_false (w : World) (c : Car) (h : c.alive = false) :
    (collisionStep w c).alive = false := by
  unfold collisionStep
  split
  · simp only [h]
    split <;> rfl
  · exact h

theorem leaderFold_spec : ∀ (l : List Car) (acc : Option ℚ) (s : ℚ),
    l.foldl leaderStep acc = some s →
    acc = some s ∨ ∃ c ∈ l, c.alive = true ∧ c.score = s := by
  intro l
  induction l with
  | nil => intro acc s h; exact Or.inl h
  | cons c l ih =>
    intro acc s h
    simp only [List.foldl_cons] at h
    rcases ih (leaderStep acc c) s h with h1 | h1
    · unfold leaderStep at h1
      by_cases hal : c.alive = true
      · rw [if_pos hal] at h1
        match acc, h1 with
        | none, h1 =>
          right
          exact ⟨c, List.mem_cons_self _ _, hal, (Option.some.injEq _ _).mp h1⟩
        | some t, h1 =>
          have h2 : (if c.score > t then some c.score else some t) = some s := h1
          by_cases hgt : c.score > t
          · rw [if_pos hgt] at h2
            right
            exact ⟨c, List.mem_cons_self _ _, hal, (Option.some.injEq _ _).mp h2⟩
          · rw [if_neg hgt] at h2
            exact Or.inl h2
      · rw [if_neg hal] at h1
        exact Or.inl h1
    · obtain ⟨c', hc', hrest⟩ := h1
      exact Or.inr ⟨c', List.mem_cons_of_mem c hc', hrest⟩

theorem drawStep_bestScore (pm : Prim) (w : World)
    (spawnF : List BrainFn → List Car) (e : Engine) :
    (drawStep pm w spawnF e).bestScoreEver =
      (match leaderScoreOf (e.population.map (update pm w)) with
       | some s => if s > e.bestScoreEver then s else e.bestScoreEver
       | none => e.bestScoreEver) := by
  unfold drawStep
  by_cases hc : (aliveCount (e.population.map (update pm w)) = 0 ∨
      e.frameCount + 1 > MAX_FRAMES) ∧ e.transitioning = false
  · rw [if_pos hc]
    rfl
  · rw [if_neg hc]

/-- Claim C10.  The leader score of a tick only ever comes from a car that
is still alive after its update; an agent that finishes during its update
leaves that update dead; hence the all-time best score is always either
unchanged or the score of a still-alive (necessarily non-just-finished)
car. -/
theorem C10_leader_ignores_finishers (pm : Prim) (w : World) :
    (∀ c : Car, c.alive = true → c.finished = false →
      (update pm w c).finished = true → (update pm w c).alive = false) ∧
    (∀ (pop : List Car) (s : ℚ), leaderScoreOf pop = some s →
      ∃ c ∈ pop, c.alive = true ∧ c.score = s) ∧
    (∀ (spawnF : List BrainFn → List Car) (e : Engine),
      (drawStep pm w spawnF e).bestScoreEver = e.bestScoreEver ∨
      ∃ c ∈ e.population.map (update pm w), c.alive = true ∧
        (drawStep pm w spawnF e).bestScoreEver = c.score) := by
  refine ⟨?_, ?_, ?_⟩
  · intro c hal hfin hupf
    unfold update at hupf ⊢
    rw [hal] at hupf ⊢
    simp only [if_true] at hupf ⊢
    by_cases h1 : (idleStep pm (integrate pm w c)).idleFrames > 300
    · rw [if_pos h1]
    · rw [if_neg h1] at hupf ⊢
      rw [collisionStep_finished] at hupf
      unfold accrue at hupf ⊢
      unfold finishStep at hupf ⊢
      have hpres : (progressStep w (speedStep pm (idleStep pm (integrate pm w c)))).finished
          = c.finished := by
        show (idleStep pm (integrate pm w c)).finished = c.finished
        rw [idleStep_finished]
        rfl
      by_cases hcond : (!(progressStep w (speedStep pm (idleStep pm (integrate pm w c)))).finished
          && onFinishTile w (progressStep w (speedStep pm (idleStep pm (integrate pm w c)))).x
            (progressStep w (speedStep pm (idleStep pm (integrate pm w c)))).y) = true
      · rw [if_pos hcond]
        exact collisionStep_alive_false _ _ rfl
      · rw [if_neg hcond] at hupf
        exfalso
        rw [hpres, hfin] at hupf
        exact Bool.false_ne_true hupf
  · intro pop s h
    rcases leaderFold_spec pop none s h with h1 | h1
    · exact absurd h1 (by simp)
    · exact h1
  · intro spawnF e
    rcases hls : leaderScoreOf (e.population.map (update pm w)) with _ | s
    · left
      rw [drawStep_bestScore, hls]
    · have hex : ∃ c ∈ e.population.map (update pm w), c.alive = true ∧ c.score = s := by
        rcases leaderFold_spec (e.population.map (update pm w)) none s hls with h1 | h1
        · exact absurd h1 (by simp)
        · exact h1
      by_cases hgt : s > e.bestScoreEver
      · right
        obtain ⟨c, hc, hcal, hcs⟩ := hex
        refine ⟨c, hc, hcal, ?_⟩
        rw [drawStep_bestScore, hls]
        show (if s > e.bestScoreEver then s else e.bestScoreEver) = c.score
        rw [if_pos hgt, hcs]
      · left
        rw [drawStep_bestScore, hls]
        show (if s > e.bestScoreEver then s else e.bestScoreEver) = e.bestScoreEver
        rw [if_neg hgt]

/-! ## Policy serialization (`Cerebro.exportarPesos` / `importarPesos`) -/

/-- One parameter tensor of the TF model: its shape and its flat
(row-major, as `dataSync()` returns it) value buffer. -/
structure Tensor where
  shape : List Nat
  data : List ℚ
deriving DecidableEq

/-- The parameter shapes of the fixed `Dense(9→5) → Dense(5→2)` topology:
kernel and bias of each layer, in `getWeights()` order. -/
def cerebroShapes : List (List Nat) := [[9, 5], [5], [5, 2], [2]]

/-- The record produced by `exportarPesos`. -/
structure ExportData where
  shapes : List (List Nat)
  values : List (List ℚ)

/-- The function `Cerebro.exportarPesos()`: shapes and flattened values of all weights. -/
def exportarPesos (m : List Tensor) : ExportData :=
  ⟨m.map (fun t => t.shape), m.map (fun t => t.data)⟩

/-- The function `Cerebro.importarPesos(data)`: rebuild tensors by pairing
`data.values[i]` with `data.shapes[i]` and install them via `setWeights`. -/
def importarPesos (d : ExportData) : List Tensor :=
  List.zipWith (fun vals shp => Tensor.mk shp vals) d.values d.shapes

theorem import_export_id (m : List Tensor) :
    importarPesos (exportarPesos m) = m := by
  unfold importarPesos exportarPesos
  induction m with
  | nil => rfl
  | cons t m ih => simp only [List.map_cons, List.zipWith_cons_cons, ih]

/-- Claim C7.  For a policy of the fixed `(9→5, 5→2)` topology, importing
the exported parameter record reproduces every weight and bias exactly
and leaves the layer shapes unchanged. -/
theorem C7_export_import_roundtrip (m : List Tensor)
    (h : m.map (fun t => t.shape) = cerebroShapes) :
    importarPesos (exportarPesos m) = m ∧
    (importarPesos (exportarPesos m)).map (fun t => t.shape) = cerebroShapes := by
  refine ⟨import_export_id m, ?_⟩
  rw [import_export_id m]
  exact h

/-- A concrete zero-initialised policy of the reference topology. -/
def m0 : List Tensor :=
  [⟨[9, 5], List.replicate 45 0⟩, ⟨[5], List.replicate 5 0⟩,
   ⟨[5, 2], List.replicate 10 0⟩, ⟨[2], List.replicate 2 0⟩]

theorem C7_export_import_roundtrip_witness :
    m0.map (fun t => t.shape) = cerebroShapes ∧
    importarPesos (exportarPesos m0) = m0 :=
  ⟨by rfl, (C7_export_import_roundtrip m0 (by rfl)).1⟩

/-! ## Field-preservation lemmas for the update phases -/

theorem idleStep_eq (pm : Prim) (c : Car) :
    idleStep pm c =
      { c with idleFrames :=
          if pm.mag c.vel.1 c.vel.2 < 0.1 then c.idleFrames + 1 else 0 } := by
  unfold idleStep
  split <;> rfl

theorem speedStep_idleFrames (pm : Prim) (c : Car) :
    (speedStep pm c).idleFrames = c.idleFrames := rfl

theorem progressStep_idleFrames (w : World) (c : Car) :
    (progressStep w c).idleFrames = c.idleFrames := rfl

theorem finishStep_idleFrames (w : World) (c : Car) :
    (finishStep w c).idleFrames = c.idleFrames := by
  unfold finishStep; split <;> rfl

theorem collisionStep_idleFrames (w : World) (c : Car) :
    (collisionStep w c).idleFrames = c.idleFrames := by
  unfold collisionStep; split <;> rfl

theorem accrue_idleFrames (pm : Prim) (w : World) (c : Car) :
    (accrue pm w c).idleFrames = c.idleFrames := by
  unfold accrue
  rw [finishStep_idleFrames]
  rfl

theorem finishStep_x (w : World) (c : Car) : (finishStep w c).x = c.x := by
  unfold finishStep; split <;> rfl

theorem finishStep_y (w : World) (c : Car) : (finishStep w c).y = c.y := by
  unfold finishStep; split <;> rfl

theorem finishStep_collisions (w : World) (c : Car) :
    (finishStep w c).collisions = c.collisions := by
  unfold finishStep; split <;> rfl

theorem accrue_x (pm : Prim) (w : World) (c : Car) : (accrue pm w c).x = c.x := by
  unfold accrue; rw [finishStep_x]; rfl

theorem accrue_y (pm : Prim) (w : World) (c : Car) : (accrue pm w c).y = c.y := by
  unfold accrue; rw [finishStep_y]; rfl

theorem accrue_collisions (pm : Prim) (w : World) (c : Car) :
    (accrue pm w c).collisions = c.collisions := by
  unfold accrue; rw [finishStep_collisions]; rfl

/-- A tile on which the car collides (wall or out of bounds) can never be
the finish tile. -/
theorem onFinishTile_false_of_collided (w : World) (x y : ℚ)
    (h : hasCollided w x y = true) : onFinishTile w x y = false := by
  simp only [hasCollided] at h
  simp only [onFinishTile]
  by_cases hoob : w.oob ⌊x / w.tileSize⌋ ⌊y / w.tileSize⌋ = true
  · rw [hoob]
    rfl
  · rw [if_neg hoob] at h
    have h1 : w.tile ⌊x / w.tileSize⌋ ⌊y / w.tileSize⌋ = 1 := by simpa using h
    rw [h1]
    simp

/-- When the finish test is false, `finishStep` is the identity. -/
theorem finishStep_of_no_finish (w : World) (c : Car)
    (h : onFinishTile w c.x c.y = false) : finishStep w c = c := by
  unfold finishStep
  rw [h]
  simp

theorem speedStep_alive (pm : Prim) (c : Car) : (speedStep pm c).alive = c.alive := rfl

theorem progressStep_alive (w : World) (c : Car) : (progressStep w c).alive = c.alive := rfl

/-! ## Claim C3: idle death -/

/-- On a tick whose post-integration velocity magnitude stays below 0.1
and whose idle counter stays within the 300-frame budget, `update`
increments the idle counter by exactly one. -/
theorem update_idle_increment (pm : Prim) (w : World) (s : Car)
    (hal : s.alive = true)
    (hmag : pm.mag (integrate pm w s).vel.1 (integrate pm w s).vel.2 < 0.1)
    (hcnt : s.idleFrames + 1 ≤ 300) :
    (update pm w s).idleFrames = s.idleFrames + 1 := by
  unfold update
  rw [hal]
  simp only [if_true]
  rw [idleStep_eq, if_pos hmag]
  have heq : ({ integrate pm w s with
      idleFrames := (integrate pm w s).idleFrames + 1 } : Car).idleFrames
      = s.idleFrames + 1 := rfl
  rw [if_neg (by rw [heq]; omega)]
  rw [collisionStep_idleFrames, accrue_idleFrames, heq]

/-- The early-return branch of the idle check: with the counter pushed
past 300 the agent dies, loses exactly 100 score, and none of the
accrual fields of the remaining phases is touched. -/
theorem update_idle_death (pm : Prim) (w : World) (s : Car)
    (hal : s.alive = true)
    (hmag : pm.mag (integrate pm w s).vel.1 (integrate pm w s).vel.2 < 0.1)
    (hcnt : s.idleFrames + 1 > 300) :
    (update pm w s).idleFrames = s.idleFrames + 1 ∧
    (update pm w s).alive = false ∧
    (update pm w s).score = s.score - 100 ∧
    (update pm w s).accumulatedSpeed = s.accumulatedSpeed ∧
    (update pm w s).distToFinish = s.distToFinish ∧
    (update pm w s).bestDist = s.bestDist ∧
    (update pm w s).finished = s.finished ∧
    (update pm w s).collisions = s.collisions ∧
    (update pm w s).cache = s.cache := by
  unfold update
  rw [hal]
  simp only [if_true]
  rw [idleStep_eq, if_pos hmag]
  have heq : ({ integrate pm w s with
      idleFrames := (integrate pm w s).idleFrames + 1 } : Car).idleFrames
      = s.idleFrames + 1 := rfl
  rw [if_pos (by rw [heq]; omega)]
  exact ⟨rfl, rfl, rfl, rfl, rfl, rfl, rfl, rfl, rfl⟩

/-- Claim C3.  A live agent whose (post-integration) velocity magnitude
stays below 0.1 for 301 consecutive ticks, starting with a zero idle
counter and surviving the first 300 ticks, reaches an idle counter of 300
after tick 300; on tick 301 the counter exceeds 300, the agent dies,
exactly 100 is subtracted from its score, and the speed, progress,
finish, and collision accruals of that tick are all skipped. -/
theorem C3_idle_timeout_death (pm : Prim) (w : World) (c : Car)
    (hidle : c.idleFrames = 0)
    (hal : ∀ k ≤ 300, ((update pm w)^[k] c).alive = true)
    (hmag : ∀ k < 301,
      pm.mag (integrate pm w ((update pm w)^[k] c)).vel.1
             (integrate pm w ((update pm w)^[k] c)).vel.2 < 0.1) :
    ((update pm w)^[300] c).idleFrames = 300 ∧
    ((update pm w)^[301] c).idleFrames = 301 ∧
    ((update pm w)^[301] c).alive = false ∧
    ((update pm w)^[301] c).score = ((update pm w)^[300] c).score - 100 ∧
    ((update pm w)^[301] c).accumulatedSpeed = ((update pm w)^[300] c).accumulatedSpeed ∧
    ((update pm w)^[301] c).distToFinish = ((update pm w)^[300] c).distToFinish ∧
    ((update pm w)^[301] c).bestDist = ((update pm w)^[300] c).bestDist ∧
    ((update pm w)^[301] c).finished = ((update pm w)^[300] c).finished ∧
    ((update pm w)^[301] c).collisions = ((update pm w)^[300] c).collisions ∧
    ((update pm w)^[301] c).cache = ((update pm w)^[300] c).cache := by
  have hcount : ∀ k, k ≤ 300 → ((update pm w)^[k] c).idleFrames = k := by
    intro k
    induction k with
    | zero => intro _; simpa using hidle
    | succ k ih =>
      intro hk
      rw [Function.iterate_succ_apply']
      rw [update_idle_increment pm w ((update pm w)^[k] c)
        (hal k (by omega)) (hmag k (by omega)) (by rw [ih (by omega)]; omega)]
      rw [ih (by omega)]
  have h300 : ((update pm w)^[300] c).idleFrames = 300 := hcount 300 (le_refl _)
  have hstep := update_idle_death pm w ((update pm w)^[300] c)
    (hal 300 (le_refl _)) (hmag 300 (by omega)) (by rw [h300]; omega)
  have hiter : (update pm w)^[301] c = update pm w ((update pm w)^[300] c) :=
    Function.iterate_succ_apply' (update pm w) 300 c
  rw [hiter]
  refine ⟨h300, ?_, hstep.2.1, hstep.2.2.1, hstep.2.2.2.1, hstep.2.2.2.2.1,
    hstep.2.2.2.2.2.1, hstep.2.2.2.2.2.2.1, hstep.2.2.2.2.2.2.2.1,
    hstep.2.2.2.2.2.2.2.2⟩
  rw [hstep.1, h300]

/-! ## Claim C4: collision penalties -/

theorem idleStep_x (pm : Prim) (c : Car) : (idleStep pm c).x = c.x := by
  unfold idleStep; split <;> rfl

theorem idleStep_y (pm : Prim) (c : Car) : (idleStep pm c).y = c.y := by
  unfold idleStep; split <;> rfl

theorem idleStep_collisions (pm : Prim) (c : Car) :
    (idleStep pm c).collisions = c.collisions := by
  unfold idleStep; split <;> rfl

/-- A tick that reaches the collision step on a wall/out-of-bounds tile:
the counter is incremented, `40 * (new counter)` is subtracted from the
score accrued so far this tick, and the agent survives exactly when the
new counter is still at most 2. -/
theorem update_collision_tick (pm : Prim) (w : World) (s : Car)
    (hal : s.alive = true)
    (hidle : (idleStep pm (integrate pm w s)).idleFrames ≤ 300)
    (hcol : hasCollided w (integrate pm w s).x (integrate pm w s).y = true) :
    (update pm w s).collisions = s.collisions + 1 ∧
    (update pm w s).score =
      (accrue pm w (idleStep pm (integrate pm w s))).score -
        40 * ((s.collisions : ℚ) + 1) ∧
    (update pm w s).alive = (if s.collisions + 1 > 2 then false else true) := by
  unfold update
  rw [hal]
  simp only [if_true]
  rw [if_neg (by omega)]
  have hax : (accrue pm w (idleStep pm (integrate pm w s))).x = (integrate pm w s).x := by
    rw [accrue_x, idleStep_x]
  have hay : (accrue pm w (idleStep pm (integrate pm w s))).y = (integrate pm w s).y := by
    rw [accrue_y, idleStep_y]
  have hcolA : hasCollided w (accrue pm w (idleStep pm (integrate pm w s))).x
      (accrue pm w (idleStep pm (integrate pm w s))).y = true := by
    rw [hax, hay]; exact hcol
  have hacoll : (accrue pm w (idleStep pm (integrate pm w s))).collisions = s.collisions := by
    rw [accrue_collisions, idleStep_collisions]
    rfl
  have hxy : onFinishTile w (progressStep w (speedStep pm (idleStep pm (integrate pm w s)))).x
      (progressStep w (speedStep pm (idleStep pm (integrate pm w s)))).y = false := by
    have hx : (progressStep w (speedStep pm (idleStep pm (integrate pm w s)))).x
        = (integrate pm w s).x := idleStep_x pm (integrate pm w s)
    have hy : (progressStep w (speedStep pm (idleStep pm (integrate pm w s)))).y
        = (integrate pm w s).y := idleStep_y pm (integrate pm w s)
    rw [hx, hy]
    exact onFinishTile_false_of_collided w _ _ hcol
  have halA : (accrue pm w (idleStep pm (integrate pm w s))).alive = true := by
    unfold accrue
    rw [finishStep_of_no_finish w _ hxy, progressStep_alive, speedStep_alive,
      idleStep_alive]
    exact hal
  unfold collisionStep
  rw [if_pos hcolA]
  refine ⟨?_, ?_, ?_⟩
  · show (accrue pm w (idleStep pm (integrate pm w s))).collisions + 1 = s.collisions + 1
    rw [hacoll]
  · show (accrue pm w (idleStep pm (integrate pm w s))).score -
        40 * (((accrue pm w (idleStep pm (integrate pm w s))).collisions : ℚ) + 1) =
      (accrue pm w (idleStep pm (integrate pm w s))).score - 40 * ((s.collisions : ℚ) + 1)
    rw [hacoll]
  · show (if (accrue pm w (idleStep pm (integrate pm w s))).collisions + 1 > 2 then false
        else (accrue pm w (idleStep pm (integrate pm w s))).alive) =
      (if s.collisions + 1 > 2 then false else true)
    rw [hacoll, halA]

/-- Claim C4.  Per tick: reaching the collision step on a wall or
out-of-bounds tile increments the counter, subtracts `40 * (new counter)`
from the score, and kills the agent once the counter exceeds 2.  Chained
over three consecutive colliding ticks from a collision-free agent, the
counters run 1, 2, 3, the per-tick penalties are 40, 80, 120 (240 in
total), and the agent is dead exactly after the third collision. -/
theorem C4_collision_counter_penalty (pm : Prim) (w : World) :
    (∀ s : Car, s.alive = true →
      (idleStep pm (integrate pm w s)).idleFrames ≤ 300 →
      hasCollided w (integrate pm w s).x (integrate pm w s).y = true →
      (update pm w s).collisions = s.collisions + 1 ∧
      (update pm w s).score =
        (accrue pm w (idleStep pm (integrate pm w s))).score -
          40 * ((s.collisions : ℚ) + 1) ∧
      (update pm w s).alive = (if s.collisions + 1 > 2 then false else true)) ∧
    (∀ c : Car, c.alive = true → c.collisions = 0 →
      (∀ k < 3, (idleStep pm (integrate pm w ((update pm w)^[k] c))).idleFrames ≤ 300) →
      (∀ k < 3, hasCollided w (integrate pm w ((update pm w)^[k] c)).x
          (integrate pm w ((update pm w)^[k] c)).y = true) →
      ((update pm w)^[1] c).collisions = 1 ∧
      ((update pm w)^[2] c).collisions = 2 ∧
      ((update pm w)^[3] c).collisions = 3 ∧
      ((update pm w)^[1] c).alive = true ∧
      ((update pm w)^[2] c).alive = true ∧
      ((update pm w)^[3] c).alive = false ∧
      ((update pm w)^[1] c).score =
        (accrue pm w (idleStep pm (integrate pm w c))).score - 40 ∧
      ((update pm w)^[2] c).score =
        (accrue pm w (idleStep pm (integrate pm w ((update pm w)^[1] c)))).score - 80 ∧
      ((update pm w)^[3] c).score =
        (accrue pm w (idleStep pm (integrate pm w ((update pm w)^[2] c)))).score - 120 ∧
      ((update pm w)^[3] c).score =
        c.score - 240 +
          (((accrue pm w (idleStep pm (integrate pm w c))).score - c.score) +
           ((accrue pm w (idleStep pm (integrate pm w ((update pm w)^[1] c)))).score -
              ((update pm w)^[1] c).score) +
           ((accrue pm w (idleStep pm (integrate pm w ((update pm w)^[2] c)))).score -
              ((update pm w)^[2] c).score))) := by
  constructor
  · intro s hal hidle hcol
    exact update_collision_tick pm w s hal hidle hcol
  · intro c hal0 hc0 hidle hcol
    have hz : (update pm w)^[0] c = c := rfl
    have e1 : (update pm w)^[1] c = update pm w c := by
      rw [Function.iterate_succ_apply', hz]
    have e2 : (update pm w)^[2] c = update pm w ((update pm w)^[1] c) :=
      Function.iterate_succ_apply' (update pm w) 1 c
    have e3 : (update pm w)^[3] c = update pm w ((update pm w)^[2] c) :=
      Function.iterate_succ_apply' (update pm w) 2 c
    have t1 := update_collision_tick pm w c hal0
      (by have h := hidle 0 (by omega); rwa [hz] at h)
      (by have h := hcol 0 (by omega); rwa [hz] at h)
    have hcol1 : ((update pm w)^[1] c).collisions = 1 := by
      rw [e1, t1.1, hc0]
    have hal1 : ((update pm w)^[1] c).alive = true := by
      rw [e1, t1.2.2, hc0]
      norm_num
    have hs1 : ((update pm w)^[1] c).score =
        (accrue pm w (idleStep pm (integrate pm w c))).score - 40 := by
      rw [e1, t1.2.1, hc0]
      norm_num
    have t2 := update_collision_tick pm w ((update pm w)^[1] c) hal1
      (hidle 1 (by omega)) (hcol 1 (by omega))
    have hcol2 : ((update pm w)^[2] c).collisions = 2 := by
      rw [e2, t2.1, hcol1]
    have hal2 : ((update pm w)^[2] c).alive = true := by
      rw [e2, t2.2.2, hcol1]
      norm_num
    have hs2 : ((update pm w)^[2] c).score =
        (accrue pm w (idleStep pm (integrate pm w ((update pm w)^[1] c)))).score - 80 := by
      rw [e2, t2.2.1, hcol1]
      norm_num
    have t3 := update_collision_tick pm w ((update pm w)^[2] c) hal2
      (hidle 2 (by omega)) (hcol 2 (by omega))
    have hcol3 : ((update pm w)^[3] c).collisions = 3 := by
      rw [e3, t3.1, hcol2]
    have hal3 : ((update pm w)^[3] c).alive = false := by
      rw [e3, t3.2.2, hcol2]
      norm_num
    have hs3 : ((update pm w)^[3] c).score =
        (accrue pm w (idleStep pm (integrate pm w ((update pm w)^[2] c)))).score - 120 := by
      rw [e3, t3.2.1, hcol2]
      norm_num
    refine ⟨hcol1, hcol2, hcol3, hal1, hal2, hal3, hs1, hs2, hs3, ?_⟩
    rw [hs3, hs2, hs1]
    ring

/-! ## Concrete instances for the witnesses -/

/-- A concrete primitive set: unit elementary direction, zero magnitudes
and distances (a car at rest). -/
def pm0 : Prim :=
  { radians := fun _ => 0, cos := fun _ => 1, sin := fun _ => 0,
    dist := fun _ _ _ _ => 0, mag := fun _ _ => 0 }

/-- A 1×1 all-road map. -/
def w0 : World := ⟨[[0]], 1⟩

/-- A 1×1 all-wall map. -/
def w1 : World := ⟨[[1]], 1⟩

/-- A 1×1 all-finish map. -/
def w2 : World := ⟨[[2]], 1⟩

/-- A 1×3 map whose finish tile is separated from the road by a wall. -/
def wGap : World := ⟨[[0, 1, 2]], 1⟩

/-- An abstract population builder for the engine witnesses. -/
def spawn0 : List BrainFn → List Car := fun _ => []

/-- A car at rest at the origin with a zero-output brain. -/
def car0 : Car :=
  { x := 0, y := 0, vel := (0, 0), angle := 0, alive := true, finished := false,
    brain := fun _ => (0, 0), sensors := List.replicate 9 0,
    readings := List.replicate 9 5, score := 0, distanceTravelled := 0,
    lastPosition := (0, 0), accumulatedSpeed := 0, framesAlive := 0,
    idleFrames := 0, collisions := 0, cache := [], distToFinish := 9999,
    bestDist := 9999 }

theorem sensor_w0 : sensorReading pm0 w0 0 0 0 0 = 5 := by
  unfold sensorReading
  unfold sensorLoop
  norm_num [pm0, w0, World.oob, World.mRows, World.mCols, World.tile]
  unfold sensorLoop
  norm_num [pm0, w0, World.oob, World.mRows, World.mCols, World.tile]

theorem sensor_w1 : sensorReading pm0 w1 0 0 0 0 = 0 := by
  unfold sensorReading
  unfold sensorLoop
  norm_num [pm0, w1, World.oob, World.mRows, World.mCols, World.tile]

theorem sensor_w2 : sensorReading pm0 w2 0 0 0 0 = 5 := by
  unfold sensorReading
  unfold sensorLoop
  norm_num [pm0, w2, World.oob, World.mRows, World.mCols, World.tile]
  unfold sensorLoop
  norm_num [pm0, w2, World.oob, World.mRows, World.mCols, World.tile]

/-- The rest car after `n` ticks on the road map. -/
def carAt (n : Nat) : Car := { car0 with framesAlive := n, idleFrames := n }

theorem finishTiles_w0 : finishTiles w0 = [] := by
  unfold finishTiles w0 World.mRows
  rfl

theorem finishTiles_w1 : finishTiles w1 = [] := by
  unfold finishTiles w1 World.mRows
  rfl

theorem finishTiles_w2 : finishTiles w2 = [(0, 0)] := by
  unfold finishTiles w2 World.mRows
  rfl

theorem bfs_w0_empty : bfsDistanceToFinish w0 0 0 [] = (9999, []) := by
  unfold bfsDistanceToFinish
  rw [finishTiles_w0]
  rfl

theorem bfs_w1_empty : bfsDistanceToFinish w1 0 0 [] = (9999, []) := by
  unfold bfsDistanceToFinish
  rw [finishTiles_w1]
  rfl

theorem pm0_cos : pm0.cos = fun _ => 1 := rfl

theorem pm0_sin : pm0.sin = fun _ => 0 := rfl

theorem pm0_dist : pm0.dist = fun _ _ _ _ => 0 := rfl

theorem pm0_mag : pm0.mag = fun _ _ => 0 := rfl

theorem integrate_carAt (n : Nat) :
    integrate pm0 w0 (carAt n) = { carAt n with framesAlive := n + 1 } := by
  unfold integrate
  unfold carAt car0
  norm_num [sensor_w0, List.map_replicate, mapRange, pm0_cos, pm0_sin, pm0_dist, pm0_mag]

theorem collisionStep_of_no_collision (w : World) (c : Car)
    (h : hasCollided w c.x c.y = false) : collisionStep w c = c := by
  unfold collisionStep
  rw [h]
  simp

theorem onFin_w0 : onFinishTile w0 0 0 = false := by
  norm_num [onFinishTile, w0, World.oob, World.tile, World.mRows, World.mCols]

theorem hasCol_w0 : hasCollided w0 0 0 = false := by
  norm_num [hasCollided, w0, World.oob, World.tile, World.mRows, World.mCols]

theorem idle_carAt (n : Nat) :
    idleStep pm0 (integrate pm0 w0 (carAt n)) =
      { carAt n with framesAlive := n + 1, idleFrames := n + 1 } := by
  rw [integrate_carAt, idleStep_eq]
  norm_num [pm0_mag, carAt, car0]

theorem speed_carAt (n : Nat) :
    speedStep pm0 ({ carAt n with framesAlive := n + 1, idleFrames := n + 1 } : Car) =
      { carAt n with framesAlive := n + 1, idleFrames := n + 1 } := by
  unfold speedStep
  norm_num [pm0_mag, carAt, car0]

theorem progress_carAt (n : Nat) :
    progressStep w0 ({ carAt n with framesAlive := n + 1, idleFrames := n + 1 } : Car) =
      { carAt n with framesAlive := n + 1, idleFrames := n + 1 } := by
  unfold progressStep
  rw [show bfsDistanceToFinish w0
      ({ carAt n with framesAlive := n + 1, idleFrames := n + 1 } : Car).x
      ({ carAt n with framesAlive := n + 1, idleFrames := n + 1 } : Car).y
      ({ carAt n with framesAlive := n + 1, idleFrames := n + 1 } : Car).cache =
      (9999, []) from bfs_w0_empty]
  norm_num [carAt, car0]

theorem update_carAt (n : Nat) (h : n + 1 ≤ 300) :
    update pm0 w0 (carAt n) = carAt (n + 1) := by
  unfold update
  rw [show (carAt n).alive = true from rfl]
  simp only [if_true]
  rw [idle_carAt]
  rw [if_neg (show ¬ (({ carAt n with framesAlive := n + 1, idleFrames := n + 1 } : Car).idleFrames > 300) from by
    show ¬ (n + 1 > 300)
    omega)]
  unfold accrue
  rw [speed_carAt, progress_carAt]
  rw [finishStep_of_no_finish w0
    ({ carAt n with framesAlive := n + 1, idleFrames := n + 1 } : Car) (by
      show onFinishTile w0 0 0 = false
      exact onFin_w0)]
  rw [collisionStep_of_no_collision w0
    ({ carAt n with framesAlive := n + 1, idleFrames := n + 1 } : Car) (by
      show hasCollided w0 0 0 = false
      exact hasCol_w0)]
  rfl

theorem carAt_iterate (k : Nat) (hk : k ≤ 300) :
    (update pm0 w0)^[k] car0 = carAt k := by
  induction k with
  | zero => rfl
  | succ k ih =>
    rw [Function.iterate_succ_apply', ih (by omega), update_carAt k (by omega)]

theorem C3_idle_timeout_death_witness :
    ((update pm0 w0)^[300] car0).idleFrames = 300 ∧
    ((update pm0 w0)^[301] car0).idleFrames = 301 ∧
    ((update pm0 w0)^[301] car0).alive = false ∧
    ((update pm0 w0)^[301] car0).score = -100 := by
  have h := C3_idle_timeout_death pm0 w0 car0 rfl
    (fun k hk => by rw [carAt_iterate k hk]; rfl)
    (fun k _ => by
      show (0 : ℚ) < 0.1
      norm_num)
  refine ⟨h.1, h.2.1, h.2.2.1, ?_⟩
  rw [h.2.2.2.1, carAt_iterate 300 (le_refl _)]
  show (0 : ℚ) - 100 = -100
  norm_num

/-- A dead car (for the C9 witness). -/
def carDead : Car := { car0 with alive := false }

theorem C9_update_dead_frozen_witness :
    carDead.alive = false ∧ update pm0 w0 carDead = carDead :=
  ⟨rfl, C9_update_dead_frozen pm0 w0 carDead rfl⟩

/-- Engine state one tick before the frame budget boundary. -/
def e5 : Engine :=
  { population := [car0], eliteBrains := [], generation := 1, frameCount := 2999,
    transitioning := false, bestScoreEver := 0, totalFinished := 0 }

theorem update_car0_alive : aliveCount (e5.population.map (update pm0 w0)) = 1 := by
  have h0 : update pm0 w0 car0 = carAt 1 := update_carAt 0 (by omega)
  show aliveCount ([car0].map (update pm0 w0)) = 1
  rw [List.map_singleton, h0]
  rfl

theorem C5_generation_transition_witness :
    (drawStep pm0 w0 spawn0 e5).generation = 1 ∧
    (drawStep pm0 w0 spawn0 e5).frameCount = 3000 ∧
    (drawStep pm0 w0 spawn0 (drawStep pm0 w0 spawn0 e5)).generation = 2 := by
  have h := (C5_generation_transition pm0 w0 spawn0 e5 rfl).2 rfl
    (by rw [update_car0_alive]; omega)
  exact ⟨h.1, h.2.1, h.2.2⟩

/-- A two-car population of equal fitness (for the C8 witness). -/
def e8 : Engine :=
  { population := [car0, car0], eliteBrains := [], generation := 1, frameCount := 0,
    transitioning := false, bestScoreEver := 0, totalFinished := 0 }

theorem C8_selection_top3_witness :
    (nextGeneration spawn0 e8).eliteBrains =
      ((sortByFitness e8.population).take 3).map (fun c => c.brain) ∧
    [car0, car0].Sublist (sortByFitness e8.population) := by
  have h := C8_selection_top3 spawn0 e8
  refine ⟨h.1, ?_⟩
  apply h.2.2.2.2
  · constructor
    · intro b hb
      rw [List.mem_singleton] at hb
      rw [hb]
      simp [fitLe]
    · exact List.pairwise_singleton _ _
  · exact List.Sublist.refl _

theorem cacheKey_one (x y : ℚ) (hx : x = 0) (hy : y = 0) :
    cacheKey wGap x y = (0, 0) := by
  rw [hx, hy]
  unfold cacheKey wGap
  norm_num

theorem C6_oracle_sentinel_witness :
    (bfsDistanceToFinish w0 0 0 []).1 = 9999 ∧
    (bfsDistanceToFinish wGap 0 0 []).1 = 9999 := by
  constructor
  · rw [(C6_oracle_sentinel w0).1 finishTiles_w0 0 0 [] rfl]
  · apply (C6_oracle_sentinel wGap).2 0 0 [] (fun p => p == ((0, 0) : Cell)) rfl
    · rw [cacheKey_one 0 0 rfl rfl]
      rfl
    · intro p hp d hd hw
      have hp' : p = (0, 0) := by simpa using hp
      rw [hp'] at hw
      rw [show dirs = [(0, -1), (1, 0), (0, 1), (-1, 0)] from rfl] at hd
      simp only [List.mem_cons, List.not_mem_nil, or_false] at hd
      rcases hd with hd | hd | hd | hd <;> rw [hd] at hw <;>
        exact absurd hw (by decide)
    · intro t ht
      rw [show finishTiles wGap = [(2, 0)] from by decide] at ht
      rw [List.mem_singleton] at ht
      rw [ht]
      rfl

/-- The rest car on the all-wall map after `k` colliding ticks. -/
def carW (k : Nat) (sc : ℚ) (al : Bool) : Car :=
  { car0 with
    readings := List.replicate 9 0, framesAlive := k, idleFrames := k,
    collisions := k, score := sc, alive := al }

theorem onFin_w1 : onFinishTile w1 0 0 = false := by
  norm_num [onFinishTile, w1, World.oob, World.tile, World.mRows, World.mCols]

theorem hasCol_w1 : hasCollided w1 0 0 = true := by
  norm_num [hasCollided, w1, World.oob, World.tile, World.mRows, World.mCols]

theorem integrate_carW (k : Nat) (sc : ℚ) :
    integrate pm0 w1 (carW k sc true) = { carW k sc true with framesAlive := k + 1 } := by
  unfold integrate
  unfold carW car0
  norm_num [sensor_w1, List.map_replicate, mapRange, pm0_cos, pm0_sin, pm0_dist, pm0_mag]

theorem idle_carW (k : Nat) (sc : ℚ) :
    idleStep pm0 (integrate pm0 w1 (carW k sc true)) =
      { carW k sc true with framesAlive := k + 1, idleFrames := k + 1 } := by
  rw [integrate_carW, idleStep_eq]
  norm_num [pm0_mag, carW, car0]

theorem speed_carW (k : Nat) (sc : ℚ) :
    speedStep pm0 ({ carW k sc true with framesAlive := k + 1, idleFrames := k + 1 } : Car) =
      { carW k sc true with framesAlive := k + 1, idleFrames := k + 1 } := by
  unfold speedStep
  norm_num [pm0_mag, carW, car0]

theorem progress_carW (k : Nat) (sc : ℚ) :
    progressStep w1 ({ carW k sc true with framesAlive := k + 1, idleFrames := k + 1 } : Car) =
      { carW k sc true with framesAlive := k + 1, idleFrames := k + 1 } := by
  unfold progressStep
  rw [show bfsDistanceToFinish w1
      ({ carW k sc true with framesAlive := k + 1, idleFrames := k + 1 } : Car).x
      ({ carW k sc true with framesAlive := k + 1, idleFrames := k + 1 } : Car).y
      ({ carW k sc true with framesAlive := k + 1, idleFrames := k + 1 } : Car).cache =
      (9999, []) from bfs_w1_empty]
  norm_num [carW, car0]

theorem update_carW (k : Nat) (sc : ℚ) (hk : k + 1 ≤ 300) :
    update pm0 w1 (carW k sc true) =
      carW (k + 1) (sc - 40 * ((k : ℚ) + 1)) (if k + 1 > 2 then false else true) := by
  unfold update
  rw [show (carW k sc true).alive = true from rfl]
  simp only [if_true]
  rw [idle_carW]
  rw [if_neg (show ¬ (({ carW k sc true with framesAlive := k + 1, idleFrames := k + 1 } : Car).idleFrames > 300) from by
    show ¬ (k + 1 > 300)
    omega)]
  unfold accrue
  rw [speed_carW, progress_carW]
  rw [finishStep_of_no_finish w1
    ({ carW k sc true with framesAlive := k + 1, idleFrames := k + 1 } : Car) (by
      show onFinishTile w1 0 0 = false
      exact onFin_w1)]
  unfold collisionStep
  rw [if_pos (show hasCollided w1
      ({ carW k sc true with framesAlive := k + 1, idleFrames := k + 1 } : Car).x
      ({ carW k sc true with framesAlive := k + 1, idleFrames := k + 1 } : Car).y = true from by
    show hasCollided w1 0 0 = true
    exact hasCol_w1)]
  norm_num [carW, car0]

theorem carW_iter1 : (update pm0 w1)^[1] (carW 0 0 true) = carW 1 (-40) true := by
  rw [show (update pm0 w1)^[1] (carW 0 0 true) = update pm0 w1 (carW 0 0 true) from rfl]
  rw [update_carW 0 0 (by omega)]
  norm_num [carW, car0]

theorem carW_iter2 : (update pm0 w1)^[2] (carW 0 0 true) = carW 2 (-120) true := by
  rw [Function.iterate_succ_apply', carW_iter1, update_carW 1 (-40) (by omega)]
  norm_num [carW, car0]

theorem carW_iter3 : (update pm0 w1)^[3] (carW 0 0 true) = carW 3 (-240) false := by
  rw [Function.iterate_succ_apply', carW_iter2, update_carW 2 (-120) (by omega)]
  norm_num [carW, car0]

theorem C4_collision_counter_penalty_witness :
    ((update pm0 w1)^[3] (carW 0 0 true)).collisions = 3 ∧
    ((update pm0 w1)^[3] (carW 0 0 true)).alive = false ∧
    ((update pm0 w1)^[3] (carW 0 0 true)).score = -240 := by
  have hidle : ∀ k < 3,
      (idleStep pm0 (integrate pm0 w1 ((update pm0 w1)^[k] (carW 0 0 true)))).idleFrames ≤ 300 := by
    intro k hk
    interval_cases k
    · rw [show (update pm0 w1)^[0] (carW 0 0 true) = carW 0 0 true from rfl, idle_carW]
      show 0 + 1 ≤ 300
      omega
    · rw [carW_iter1, idle_carW]
      show 1 + 1 ≤ 300
      omega
    · rw [carW_iter2, idle_carW]
      show 2 + 1 ≤ 300
      omega
  have hcol : ∀ k < 3,
      hasCollided w1 (integrate pm0 w1 ((update pm0 w1)^[k] (carW 0 0 true))).x
        (integrate pm0 w1 ((update pm0 w1)^[k] (carW 0 0 true))).y = true := by
    intro k hk
    interval_cases k
    · rw [show (update pm0 w1)^[0] (carW 0 0 true) = carW 0 0 true from rfl, integrate_carW]
      show hasCollided w1 0 0 = true
      exact hasCol_w1
    · rw [carW_iter1, integrate_carW]
      show hasCollided w1 0 0 = true
      exact hasCol_w1
    · rw [carW_iter2, integrate_carW]
      show hasCollided w1 0 0 = true
      exact hasCol_w1
  have h := (C4_collision_counter_penalty pm0 w1).2 (carW 0 0 true) rfl rfl hidle hcol
  refine ⟨h.2.2.1, h.2.2.2.2.2.1, ?_⟩
  rw [carW_iter3]
  rfl

/-- A car starting on the finish tile (for the C10 witness). -/
def carF : Car := { car0 with distToFinish := 0, bestDist := 0 }

theorem onFin_w2 : onFinishTile w2 0 0 = true := by
  norm_num [onFinishTile, w2, World.oob, World.tile, World.mRows, World.mCols]

theorem hasCol_w2 : hasCollided w2 0 0 = false := by
  norm_num [hasCollided, w2, World.oob, World.tile, World.mRows, World.mCols]

theorem bfs_w2_start : bfsDistanceToFinish w2 0 0 [] = (0, [((0, 0), 0)]) := by
  have hkey : cacheKey w2 0 0 = ((0 : Int), (0 : Int)) := by
    unfold cacheKey w2
    norm_num
  simp only [bfsDistanceToFinish, hkey, finishTiles_w2]
  rfl

theorem integrate_carF :
    integrate pm0 w2 carF = { carF with framesAlive := 1 } := by
  unfold integrate
  unfold carF car0
  norm_num [sensor_w2, List.map_replicate, mapRange, pm0_cos, pm0_sin, pm0_dist, pm0_mag]

theorem idle_carF :
    idleStep pm0 (integrate pm0 w2 carF) =
      { carF with framesAlive := 1, idleFrames := 1 } := by
  rw [integrate_carF, idleStep_eq]
  norm_num [pm0_mag, carF, car0]

theorem speed_carF :
    speedStep pm0 ({ carF with framesAlive := 1, idleFrames := 1 } : Car) =
      { carF with framesAlive := 1, idleFrames := 1 } := by
  unfold speedStep
  norm_num [pm0_mag, carF, car0]

theorem progress_carF :
    progressStep w2 ({ carF with framesAlive := 1, idleFrames := 1 } : Car) =
      { carF with framesAlive := 1, idleFrames := 1, cache := [((0, 0), 0)] } := by
  unfold progressStep
  rw [show bfsDistanceToFinish w2
      ({ carF with framesAlive := 1, idleFrames := 1 } : Car).x
      ({ carF with framesAlive := 1, idleFrames := 1 } : Car).y
      ({ carF with framesAlive := 1, idleFrames := 1 } : Car).cache =
      (0, [((0, 0), 0)]) from bfs_w2_start]
  norm_num [carF, car0]

theorem update_carF :
    update pm0 w2 carF =
      { carF with
        framesAlive := 1, idleFrames := 1, cache := [((0, 0), 0)],
        finished := true, score := 2000, alive := false } := by
  unfold update
  rw [show carF.alive = true from rfl]
  simp only [if_true]
  rw [idle_carF]
  rw [if_neg (show ¬ (({ carF with framesAlive := 1, idleFrames := 1 } : Car).idleFrames > 300) from by
    show ¬ (1 > 300)
    omega)]
  unfold accrue
  rw [speed_carF, progress_carF]
  unfold finishStep
  rw [if_pos (show (!({ carF with
        framesAlive := 1, idleFrames := 1,
        cache := [(((0 : Int), (0 : Int)), (0 : ℚ))] } : Car).finished &&
      onFinishTile w2
        ({ carF with
          framesAlive := 1, idleFrames := 1,
          cache := [(((0 : Int), (0 : Int)), (0 : ℚ))] } : Car).x
        ({ carF with
          framesAlive := 1, idleFrames := 1,
          cache := [(((0 : Int), (0 : Int)), (0 : ℚ))] } : Car).y) = true from by
    show (!(false : Bool) && onFinishTile w2 0 0) = true
    rw [onFin_w2]
    rfl)]
  rw [collisionStep_of_no_collision w2 _ (by
    show hasCollided w2 0 0 = false
    exact hasCol_w2)]
  norm_num [carF, car0]

theorem C10_leader_ignores_finishers_witness :
    (update pm0 w2 carF).finished = true ∧
    (update pm0 w2 carF).alive = false ∧
    (∃ c ∈ [car0], c.alive = true ∧ c.score = 0) ∧
    ((drawStep pm0 w0 spawn0 e5).bestScoreEver = e5.bestScoreEver ∨
      ∃ c ∈ e5.population.map (update pm0 w0), c.alive = true ∧
        (drawStep pm0 w0 spawn0 e5).bestScoreEver = c.score) := by
  refine ⟨?_, ?_, ?_, ?_⟩
  · rw [update_carF]
  · exact (C10_leader_ignores_finishers pm0 w2).1 carF rfl rfl (by rw [update_carF])
  · exact (C10_leader_ignores_finishers pm0 w0).2.1 [car0] 0 (by
      show leaderScoreOf [car0] = some 0
      rfl)
  · exact (C10_leader_ignores_finishers pm0 w0).2.2 spawn0 e5
